import Mathlib

/-!
Verification of the ordered queue-consumer core
(`sentry/remote_subscriptions/consumers/queue_consumer.py`).

The Python classes `OffsetTracker`, `OrderedQueueWorker`, `FixedQueuePool` and
`SimpleQueueProcessingStrategy` are shallowly embedded below.  Python dicts
become association lists queried through `lookupD` (which models both
`dict.get(k, default)` and `defaultdict` access), Python sets of offsets become
duplicate-free `List Int` values, and the per-partition `threading.Lock` table
`partition_locks` is modelled by its key set (a `List Partition`): in the
sequential embedding a lock's only observable behaviour is that looking one up
for a missing key raises `KeyError`, and `partition not in self.partition_locks`
tests key membership.  Fallible Python code (raise) is modelled with `Except`.
-/

/-- Python partitions (`arroyo.types.Partition`) are opaque hashable keys;
we model them as naturals. -/
abbrev Partition := Nat

/-- The exceptions the ledger can raise: `UnassignedPartitionError`
(raised explicitly by `add_offset`) and `KeyError` (raised by a plain
`dict[key]` lookup such as `partition_locks[partition]`). -/
inductive PyErr where
  | unassignedPartition
  | keyError
deriving DecidableEq

/-- `dict.get(k, d)` / `defaultdict` read on an association list. -/
def lookupD {α : Type} : List (Partition × α) → Partition → α → α
  | [], _, d => d
  | kv :: rest, k, d => if kv.1 = k then kv.2 else lookupD rest k d

/-- `dict[k] = v` on an association list: replaces the first binding of `k`
or appends a fresh one. -/
def insertA {α : Type} : List (Partition × α) → Partition → α → List (Partition × α)
  | [], k, v => [(k, v)]
  | kv :: rest, k, v => if kv.1 = k then (k, v) :: rest else kv :: insertA rest k v

/-- Python `set.add`: insert if absent (keeps the list duplicate-free). -/
def sadd (s : List Int) (o : Int) : List Int :=
  if o ∈ s then s else s ++ [o]

/-- Python `set.discard`: remove the offset if present. -/
def sdiscard (s : List Int) (o : Int) : List Int :=
  s.filter (fun x => x ≠ o)

/-- State of `OffsetTracker`: `all_offsets` and `outstanding` are
`defaultdict(set)`, `last_committed` a plain dict, and `partition_locks`
is represented by its key set (the current assignment). -/
structure Tracker where
  all_offsets : List (Partition × List Int)
  outstanding : List (Partition × List Int)
  last_committed : List (Partition × Int)
  partition_locks : List Partition
deriving DecidableEq

/-- The freshly constructed tracker (`OffsetTracker.__init__`). -/
def Tracker.init : Tracker := ⟨[], [], [], []⟩

/-- `OffsetTracker.clear`: empties all four containers. -/
def Tracker.clear (_ : Tracker) : Tracker := Tracker.init

/-- `self.all_offsets[p]` (defaultdict read). -/
def allD (t : Tracker) (p : Partition) : List Int := lookupD t.all_offsets p []

/-- `self.outstanding[p]` (defaultdict read). -/
def outD (t : Tracker) (p : Partition) : List Int := lookupD t.outstanding p []

/-- `self.last_committed.get(p, -1)`. -/
def lastD (t : Tracker) (p : Partition) : Int := lookupD t.last_committed p (-1)

/-- `OffsetTracker.add_offset`: raises `UnassignedPartitionError` when the
partition has no lock; otherwise adds the offset to both `all_offsets`
and `outstanding`. -/
def add_offset (t : Tracker) (p : Partition) (o : Int) : Except PyErr Tracker :=
  if p ∈ t.partition_locks then
    Except.ok
      { t with
        all_offsets := insertA t.all_offsets p (sadd (allD t p) o)
        outstanding := insertA t.outstanding p (sadd (outD t p) o) }
  else
    Except.error PyErr.unassignedPartition

/-- `OffsetTracker.complete_offset`: silent no-op for an untracked partition,
otherwise discards the offset from `outstanding`. -/
def complete_offset (t : Tracker) (p : Partition) (o : Int) : Tracker :=
  if p ∈ t.partition_locks then
    { t with outstanding := insertA t.outstanding p (sdiscard (outD t p) o) }
  else t

/-- The `for offset in range(off, mx + 1)` loop body of
`get_committable_offsets`: advance `highest_committable` while the offset is
admitted and not outstanding, break at the first failure.  `fuel` is the
number of remaining loop iterations. -/
def scanHighest (allOfs outst : List Int) (hc off : Int) : Nat → Int
  | 0 => hc
  | fuel + 1 =>
    if off ∈ allOfs ∧ off ∉ outst then scanHighest allOfs outst off (off + 1) fuel
    else hc

/-- The per-partition body of `OffsetTracker.get_committable_offsets`:
`none` models `continue` (empty offset set) or `highest_committable`
not exceeding `last_committed`. -/
def committableFor (t : Tracker) (p : Partition) : Option Int :=
  let allOfs := allD t p
  match allOfs.min?, allOfs.max? with
  | some mn, some mx =>
    let last := lastD t p
    let start := max (last + 1) mn
    let hc := scanHighest allOfs (outD t p) last start (mx + 1 - start).toNat
    if last < hc then some hc else none
  | _, _ => none

/-- `OffsetTracker.get_committable_offsets`: iterates over the keys of
`all_offsets` and keeps partitions whose committable offset strictly
exceeds `last_committed`.  (The Python body only reads and never changes
the tracked sets, so the model is a pure function of the state.) -/
def get_committable_offsets (t : Tracker) : List (Partition × Int) :=
  t.all_offsets.filterMap (fun kv => (committableFor t kv.1).map (fun v => (kv.1, v)))

/-- `OffsetTracker.mark_committed`: `_get_partition_lock` performs the raw
dict lookup `partition_locks[partition]`, which raises `KeyError` when the
partition is absent; otherwise records the commit and prunes `all_offsets`
down to the offsets strictly above it. -/
def mark_committed (t : Tracker) (p : Partition) (o : Int) : Except PyErr Tracker :=
  if p ∈ t.partition_locks then
    Except.ok
      { t with
        last_committed := insertA t.last_committed p o
        all_offsets := insertA t.all_offsets p ((allD t p).filter (fun x => x > o)) }
  else
    Except.error PyErr.keyError

/-- `OffsetTracker.update_assignments`: clear everything, then install
locks for exactly the new assignment. -/
def update_assignments (t : Tracker) (ps : List Partition) : Tracker :=
  { Tracker.clear t with partition_locks := ps }

deriving instance DecidableEq for Except

/-- `WorkItem`: partition, offset and decoded result.  The `message` field of
the Python dataclass is only a diagnostic handle to the raw record and carries
no behaviour, so it is not modelled. -/
structure WorkItem (α : Type) where
  partition : Partition
  offset : Int
  result : α
deriving DecidableEq

/-- Observable events of a worker loop: the call into the external
`result_processor` (with whether it raised) and the `complete_offset`
call of the `finally` block. -/
inductive Ev where
  | processed (p : Partition) (o : Int) (raised : Bool)
  | completed (p : Partition) (o : Int)
deriving DecidableEq

/-- `OrderedQueueWorker.run`: the worker dequeues the listed items in FIFO
order; each entry carries the item and whether the `result_processor`
callback raises on it (the exception is caught and logged inside the loop).
The `finally` block always calls `complete_offset` before the next
`work_queue.get()`.  The list is the sequence of items the worker dequeues
before the queue shuts down; the result is the final tracker state and the
event trace. -/
def workerRun (t : Tracker) : List (WorkItem α × Bool) → Tracker × List Ev
  | [] => (t, [])
  | (it, raised) :: rest =>
    let t1 := complete_offset t it.partition it.offset
    let r := workerRun t1 rest
    (r.1, Ev.processed it.partition it.offset raised ::
          Ev.completed it.partition it.offset :: r.2)

/-- State of `FixedQueuePool`: the shared `OffsetTracker` and the lane
queues (each a FIFO list, front = next item to be dequeued). -/
structure Pool (α : Type) where
  tracker : Tracker
  queues : List (List (WorkItem α))
deriving DecidableEq

/-- `FixedQueuePool.get_queue_for_group`: `hash(group_key) % num_queues`.
Python's string hash is opaque, so it is a parameter. -/
def get_queue_for_group (hashFn : String → Nat) (groupKey : String) (numQueues : Nat) : Nat :=
  hashFn groupKey % numQueues

/-- `FixedQueuePool.submit`: `add_offset` first; on `UnassignedPartitionError`
the item is dropped (logged, counted) and submit returns without queuing;
otherwise the item is appended to the lane chosen by hashing the group key. -/
def poolSubmit (pool : Pool α) (hashFn : String → Nat) (groupKey : String)
    (it : WorkItem α) : Pool α :=
  match add_offset pool.tracker it.partition it.offset with
  | Except.error _ => pool
  | Except.ok t1 =>
    let i := get_queue_for_group hashFn groupKey pool.queues.length
    { tracker := t1, queues := pool.queues.set i (pool.queues.getD i [] ++ [it]) }

/-- `FixedQueuePool.wait_until_empty`: the polling loop
`while time.time() - start_time < timeout: if total == 0: return True;
sleep(0.01)` and `return False` after it.  Each list entry is one loop
iteration: the elapsed time at its check (time is quantized to `Int`; only
order matters) and whether the queues were observed empty.  `wait_until_empty`
terminates because elapsed time eventually passes any timeout, so a finite
iteration list suffices. -/
def wait_until_empty (timeout : Int) : List (Int × Bool) → Bool
  | [] => false
  | (elapsed, isEmpty) :: rest =>
    if elapsed < timeout then
      if isEmpty then true else wait_until_empty timeout rest
    else false

/-- `FixedQueuePool.flush`: `timeout = none` models `timeout=None`
(`success = False` without waiting); otherwise `wait_until_empty` runs with
the given poll observations.  On failure every lane queue is drained without
processing; in every case the tracker is cleared and `success` returned. -/
def flush (pool : Pool α) (timeout : Option Int) (polls : List (Int × Bool)) :
    Pool α × Bool :=
  let success :=
    match timeout with
    | none => false
    | some tmo => wait_until_empty tmo polls
  let pool1 :=
    if success then pool
    else { pool with queues := pool.queues.map (fun _ => ([] : List (WorkItem α))) }
  ({ pool1 with tracker := Tracker.clear pool1.tracker }, success)

/-- How a call to `SimpleQueueProcessingStrategy.submit` terminates:
`rejected` is the `MessageRejected` backpressure signal, `returned` a normal
return, `raised e` an exception escaping to the caller. -/
inductive Outcome where
  | rejected
  | returned
  | raised (e : PyErr)
deriving DecidableEq

/-- The `except Exception` handler at the end of
`SimpleQueueProcessingStrategy.submit`: log, then, when the message has a
`BrokerValue`, call `add_offset` and `complete_offset`.  These calls are not
guarded, so an `UnassignedPartitionError` from `add_offset` propagates out
of `submit`. -/
def strategyRecover (pool : Pool α) (broker : Option (Partition × Int)) :
    Outcome × Pool α :=
  match broker with
  | none => (Outcome.returned, pool)
  | some (p, o) =>
    match add_offset pool.tracker p o with
    | Except.error e => (Outcome.raised e, pool)
    | Except.ok t1 => (Outcome.returned, { pool with tracker := complete_offset t1 p o })

/-- `SimpleQueueProcessingStrategy.submit`.  External collaborators are
passed as data: `decodeRes` is the decoder's verdict on this message's
payload (`Except.error` = the decoder raised), `groupingFn` the grouping
function (which may also raise), `broker` the partition and offset when
`message.value` is a `BrokerValue` (`none` makes the `assert` fail, an
`AssertionError` caught by the outer handler).  The decode-skip path guards
`add_offset`/`complete_offset` with `except UnassignedPartitionError: pass`;
the pool-submit path guards `add_offset` inside `FixedQueuePool.submit`;
any other exception falls to `strategyRecover`. -/
def strategySubmit (shutdown : Bool) (pool : Pool α) (hashFn : String → Nat)
    (groupingFn : α → Except Unit String) (decodeRes : Except Unit (Option α))
    (broker : Option (Partition × Int)) : Outcome × Pool α :=
  if shutdown then (Outcome.rejected, pool)
  else
    match decodeRes with
    | Except.error _ => strategyRecover pool broker
    | Except.ok res =>
      match broker with
      | none => strategyRecover pool none
      | some (p, o) =>
        match res with
        | none =>
          match add_offset pool.tracker p o with
          | Except.error _ => (Outcome.returned, pool)
          | Except.ok t1 => (Outcome.returned, { pool with tracker := complete_offset t1 p o })
        | some r =>
          match groupingFn r with
          | Except.error _ => strategyRecover pool (some (p, o))
          | Except.ok key => (Outcome.returned, poolSubmit pool hashFn key ⟨p, o, r⟩)

/-- The spec invariant `outstanding[p] ⊆ admitted[p]`, read through the
model's dictionaries. -/
def TrackerInv (t : Tracker) : Prop :=
  ∀ p : Partition, ∀ o ∈ outD t p, o ∈ allD t p

theorem lookupD_insertA_self {α : Type} (m : List (Partition × α)) (k : Partition) (v d : α) :
    lookupD (insertA m k v) k d = v := by
  induction m with
  | nil => simp [insertA, lookupD]
  | cons kv rest ih =>
    by_cases h : kv.1 = k
    · simp [insertA, h, lookupD]
    · simp [insertA, h, lookupD, ih]

theorem lookupD_insertA_ne {α : Type} (m : List (Partition × α)) (k q : Partition) (v d : α)
    (h : q ≠ k) : lookupD (insertA m k v) q d = lookupD m q d := by
  induction m with
  | nil => simp [insertA, lookupD, Ne.symm h]
  | cons kv rest ih =>
    by_cases hk : kv.1 = k
    · simp [insertA, hk, lookupD, Ne.symm h, hk ▸ (Ne.symm h)]
    · by_cases hq : kv.1 = q
      · simp [insertA, hk, lookupD, hq, h]
      · simp [insertA, hk, lookupD, hq, ih]

theorem mem_sadd (s : List Int) (o x : Int) : x ∈ sadd s o ↔ x ∈ s ∨ x = o := by
  unfold sadd
  by_cases h : o ∈ s
  · simp only [if_pos h]
    constructor
    · exact Or.inl
    · rintro (hx | rfl) <;> assumption
  · simp [if_neg h]

theorem mem_sdiscard (s : List Int) (o x : Int) : x ∈ sdiscard s o ↔ x ∈ s ∧ x ≠ o := by
  simp [sdiscard]

theorem scanHighest_sound (allOfs outst : List Int) :
    ∀ (fuel : Nat) (hc off : Int), hc < off →
      ∀ o : Int, off ≤ o → o ≤ scanHighest allOfs outst hc off fuel →
        o ∈ allOfs ∧ o ∉ outst := by
  intro fuel
  induction fuel with
  | zero =>
    intro hc off hlt o h1 h2
    simp only [scanHighest] at h2
    omega
  | succ fuel ih =>
    intro hc off hlt o h1 h2
    simp only [scanHighest] at h2
    by_cases hcheck : off ∈ allOfs ∧ off ∉ outst
    · rw [if_pos hcheck] at h2
      rcases eq_or_lt_of_le h1 with heq | hlt2
      · exact heq ▸ hcheck
      · exact ih off (off + 1) (by omega) o (by omega) h2
    · rw [if_neg hcheck] at h2
      omega

theorem mem_get_committable (t : Tracker) (p : Partition) (v : Int)
    (h : (p, v) ∈ get_committable_offsets t) : committableFor t p = some v := by
  unfold get_committable_offsets at h
  rw [List.mem_filterMap] at h
  obtain ⟨kv, hkv, hmap⟩ := h
  cases hc : committableFor t kv.1 with
  | none => rw [hc] at hmap; simp at hmap
  | some w =>
    rw [hc] at hmap
    simp only [Option.map_some', Option.some.injEq, Prod.mk.injEq] at hmap
    obtain ⟨h1, h2⟩ := hmap
    rw [← h1, hc, h2]

theorem committableFor_sound (t : Tracker) (p : Partition) (v : Int)
    (h : committableFor t p = some v) :
    lastD t p < v ∧ ∃ mn, (allD t p).min? = some mn ∧
      ∀ o : Int, max (lastD t p + 1) mn ≤ o → o ≤ v → o ∈ allD t p ∧ o ∉ outD t p := by
  unfold committableFor at h
  dsimp only at h
  split at h
  next mn mx hmn hmx =>
    split at h
    next hguard =>
      obtain rfl : _ = v := Option.some.injEq _ _ |>.mp h
      refine ⟨hguard, mn, hmn, fun o h1 h2 => ?_⟩
      exact scanHighest_sound (allD t p) (outD t p) _ (lastD t p)
        (max (lastD t p + 1) mn) (by omega) o h1 h2
    next hguard => exact absurd h (by simp)
  next => exact absurd h (by simp)

/-- C4: with offsets 5, 6, 7, 9 admitted on one partition (8 never admitted),
5, 6 and 7 completed and 9 still outstanding, and no prior checkpoint,
`get_committable_offsets` returns exactly 7 for that partition, not 9. -/
theorem c4_committable_stops_at_hole :
    add_offset (update_assignments Tracker.init [0]) 0 5 =
      Except.ok ⟨[(0, [5])], [(0, [5])], [], [0]⟩ ∧
    add_offset ⟨[(0, [5])], [(0, [5])], [], [0]⟩ 0 6 =
      Except.ok ⟨[(0, [5, 6])], [(0, [5, 6])], [], [0]⟩ ∧
    add_offset ⟨[(0, [5, 6])], [(0, [5, 6])], [], [0]⟩ 0 7 =
      Except.ok ⟨[(0, [5, 6, 7])], [(0, [5, 6, 7])], [], [0]⟩ ∧
    add_offset ⟨[(0, [5, 6, 7])], [(0, [5, 6, 7])], [], [0]⟩ 0 9 =
      Except.ok ⟨[(0, [5, 6, 7, 9])], [(0, [5, 6, 7, 9])], [], [0]⟩ ∧
    complete_offset (complete_offset (complete_offset
        ⟨[(0, [5, 6, 7, 9])], [(0, [5, 6, 7, 9])], [], [0]⟩ 0 5) 0 6) 0 7 =
      ⟨[(0, [5, 6, 7, 9])], [(0, [9])], [], [0]⟩ ∧
    get_committable_offsets ⟨[(0, [5, 6, 7, 9])], [(0, [9])], [], [0]⟩ = [(0, 7)] := by
  decide

/-- C1 counterexample: admit and complete only offset 5 on a fresh partition
(no prior checkpoint, so `lastCheckpoint` is logically -1).
`get_committable_offsets` returns 5, yet offset 0 lies in the range
`(lastCheckpoint, 5]` and was never admitted: the scan skipped the gap
below the minimum admitted offset. -/
theorem c1_counterexample :
    add_offset (update_assignments Tracker.init [0]) 0 5 =
      Except.ok ⟨[(0, [5])], [(0, [5])], [], [0]⟩ ∧
    complete_offset ⟨[(0, [5])], [(0, [5])], [], [0]⟩ 0 5 =
      ⟨[(0, [5])], [(0, [])], [], [0]⟩ ∧
    (0, 5) ∈ get_committable_offsets ⟨[(0, [5])], [(0, [])], [], [0]⟩ ∧
    lastD ⟨[(0, [5])], [(0, [])], [], [0]⟩ 0 < 0 ∧ (0 : Int) ≤ 5 ∧
    (0 : Int) ∉ allD ⟨[(0, [5])], [(0, [])], [], [0]⟩ 0 := by
  decide

/-- C1 (amended): every value `v` returned by `get_committable_offsets` for a
partition strictly exceeds `lastCheckpoint`, and every offset in the
contiguous range from `max(lastCheckpoint + 1, min(admitted))` up to `v` is
present in `admitted` and absent from `outstanding`; the scan stops at the
first hole at or after that starting point, but gaps strictly below the
minimum admitted offset are skipped. -/
theorem c1_amended_committable_range (t : Tracker) (p : Partition) (v : Int)
    (h : (p, v) ∈ get_committable_offsets t) :
    lastD t p < v ∧ ∃ mn, (allD t p).min? = some mn ∧
      ∀ o : Int, max (lastD t p + 1) mn ≤ o → o ≤ v → o ∈ allD t p ∧ o ∉ outD t p :=
  committableFor_sound t p v (mem_get_committable t p v h)

/-- Witness for `c1_amended_committable_range` at the C4 scenario state. -/
theorem c1_amended_committable_range_witness :
    lastD ⟨[(0, [5, 6, 7, 9])], [(0, [9])], [], [0]⟩ 0 < 7 ∧
    ∃ mn, (allD ⟨[(0, [5, 6, 7, 9])], [(0, [9])], [], [0]⟩ 0).min? = some mn ∧
      ∀ o : Int, max (lastD ⟨[(0, [5, 6, 7, 9])], [(0, [9])], [], [0]⟩ 0 + 1) mn ≤ o →
        o ≤ 7 → o ∈ allD ⟨[(0, [5, 6, 7, 9])], [(0, [9])], [], [0]⟩ 0 ∧
          o ∉ outD ⟨[(0, [5, 6, 7, 9])], [(0, [9])], [], [0]⟩ 0 :=
  c1_amended_committable_range _ 0 7 (by decide)

/-- C6: `FixedQueuePool.submit` with a work item whose partition is outside
the current assignment returns with the pool completely unchanged: nothing
is enqueued on any lane and the ledger keeps its state. -/
theorem c6_pool_submit_unassigned_drops (pool : Pool α) (hashFn : String → Nat)
    (groupKey : String) (it : WorkItem α)
    (h : it.partition ∉ pool.tracker.partition_locks) :
    poolSubmit pool hashFn groupKey it = pool := by
  simp [poolSubmit, add_offset, h]

/-- Witness for `c6_pool_submit_unassigned_drops`: partition 0 is submitted
while only partition 1 is assigned. -/
theorem c6_pool_submit_unassigned_drops_witness :
    poolSubmit (⟨⟨[], [], [], [1]⟩, [[]]⟩ : Pool Unit) (fun _ => 0) "g" ⟨0, 3, ()⟩ =
      (⟨⟨[], [], [], [1]⟩, [[]]⟩ : Pool Unit) :=
  c6_pool_submit_unassigned_drops _ _ _ _ (by decide)

/-- C7: any value the commit loop takes from `get_committable_offsets` and
hands to `mark_committed` strictly exceeds that partition's current
`last_committed`, and after the call `last_committed` equals that value while
every other partition's entry is untouched: `last_committed` never
decreases under the checkpoint driver's discipline. -/
theorem c7_mark_committed_monotonic (t : Tracker) (p : Partition) (v : Int) (t1 : Tracker)
    (h : (p, v) ∈ get_committable_offsets t) (hm : mark_committed t p v = Except.ok t1) :
    lastD t p < v ∧ lastD t1 p = v ∧ ∀ q : Partition, q ≠ p → lastD t1 q = lastD t q := by
  have h1 := (committableFor_sound t p v (mem_get_committable t p v h)).1
  unfold mark_committed at hm
  split at hm
  next hp =>
    injection hm with h2
    subst h2
    exact ⟨h1, by simp [lastD, lookupD_insertA_self],
      fun q hq => by simp [lastD, lookupD_insertA_ne _ _ _ _ _ hq]⟩
  next hp => exact absurd hm (by simp)

/-- Witness for `c7_mark_committed_monotonic`: committing the returned
offset 5 raises `last_committed` of partition 0 from -1 to 5. -/
theorem c7_mark_committed_monotonic_witness :
    lastD ⟨[(0, [5])], [(0, [])], [], [0]⟩ 0 < 5 ∧
    lastD ⟨[(0, [])], [(0, [])], [(0, 5)], [0]⟩ 0 = 5 ∧
    ∀ q : Partition, q ≠ 0 →
      lastD ⟨[(0, [])], [(0, [])], [(0, 5)], [0]⟩ q =
        lastD ⟨[(0, [5])], [(0, [])], [], [0]⟩ q :=
  c7_mark_committed_monotonic _ 0 5 _ (by decide) (by decide)

/-- C10: when a partition has no entry in `partition_locks` (after a
reassignment or clear), `mark_committed` raises `KeyError` from the raw
`partition_locks[partition]` lookup — not `UnassignedPartitionError` —
while `complete_offset` on the same partition is a silent no-op. -/
theorem c10_mark_committed_keyerror (t : Tracker) (p : Partition) (o : Int)
    (h : p ∉ t.partition_locks) :
    mark_committed t p o = Except.error PyErr.keyError ∧ complete_offset t p o = t := by
  constructor
  · simp [mark_committed, h]
  · simp [complete_offset, h]

/-- Witness for `c10_mark_committed_keyerror` on the freshly cleared tracker. -/
theorem c10_mark_committed_keyerror_witness :
    mark_committed Tracker.init 0 0 = Except.error PyErr.keyError ∧
    complete_offset Tracker.init 0 0 = Tracker.init :=
  c10_mark_committed_keyerror Tracker.init 0 0 (by decide)

/-- C3 counterexample: admit offset 5 (so it is both admitted and
outstanding), then `mark_committed(0, 5)`: the pruning removes 5 from
`all_offsets` but leaves it in `outstanding`, breaking
`outstanding[p] ⊆ admitted[p]`. -/
theorem c3_counterexample :
    add_offset (update_assignments Tracker.init [0]) 0 5 =
      Except.ok ⟨[(0, [5])], [(0, [5])], [], [0]⟩ ∧
    mark_committed ⟨[(0, [5])], [(0, [5])], [], [0]⟩ 0 5 =
      Except.ok ⟨[(0, [])], [(0, [5])], [(0, 5)], [0]⟩ ∧
    (5 : Int) ∈ outD ⟨[(0, [])], [(0, [5])], [(0, 5)], [0]⟩ 0 ∧
    (5 : Int) ∉ allD ⟨[(0, [])], [(0, [5])], [(0, 5)], [0]⟩ 0 := by
  decide

/-- C3 (amended): `outstanding[p] ⊆ admitted[p]` is preserved by
`add_offset`, `complete_offset`, `clear` and `update_assignments` (and by
`get_committable_offsets`, which does not modify the tracked state), and by
`mark_committed(p, o)` provided every outstanding offset of `p` exceeds `o`
(which the checkpoint driver's discipline ensures); an unrestricted
`mark_committed` can break it. -/
theorem c3_amended_invariant_preservation (t : Tracker) (hInv : TrackerInv t)
    (p : Partition) (o : Int) (ps : List Partition) :
    (∀ ta, add_offset t p o = Except.ok ta → TrackerInv ta) ∧
    TrackerInv (complete_offset t p o) ∧
    TrackerInv (Tracker.clear t) ∧ TrackerInv (update_assignments t ps) ∧
    ((∀ x ∈ outD t p, o < x) →
      ∀ tm, mark_committed t p o = Except.ok tm → TrackerInv tm) := by
  refine ⟨?_, ?_, ?_, ?_, ?_⟩
  · intro ta ha
    unfold add_offset at ha
    split at ha
    next hp =>
      injection ha with h2
      subst h2
      intro q x hx
      by_cases hq : q = p
      · subst hq
        simp only [outD, lookupD_insertA_self] at hx
        rw [mem_sadd] at hx
        simp only [allD, lookupD_insertA_self, mem_sadd]
        rcases hx with hx | rfl
        · exact Or.inl (hInv q x hx)
        · exact Or.inr rfl
      · simp only [outD, lookupD_insertA_ne _ _ _ _ _ hq] at hx
        simp only [allD, lookupD_insertA_ne _ _ _ _ _ hq]
        exact hInv q x hx
    next hp => exact absurd ha (by simp)
  · intro q x hx
    by_cases hp : p ∈ t.partition_locks
    · simp only [complete_offset, if_pos hp] at hx ⊢
      by_cases hq : q = p
      · subst hq
        simp only [outD, lookupD_insertA_self] at hx
        rw [mem_sdiscard] at hx
        simp only [allD]
        exact hInv q x hx.1
      · simp only [outD, lookupD_insertA_ne _ _ _ _ _ hq] at hx
        simp only [allD]
        exact hInv q x hx
    · simp only [complete_offset, if_neg hp] at hx ⊢
      exact hInv q x hx
  · intro q x hx
    simp [Tracker.clear, Tracker.init, outD, lookupD] at hx
  · intro q x hx
    simp [update_assignments, Tracker.clear, Tracker.init, outD, lookupD] at hx
  · intro hout tm hm
    unfold mark_committed at hm
    split at hm
    next hp =>
      injection hm with h2
      subst h2
      intro q x hx
      have hx1 : x ∈ outD t q := hx
      by_cases hq : q = p
      · subst hq
        simp only [allD, lookupD_insertA_self, List.mem_filter, decide_eq_true_eq]
        exact ⟨hInv q x hx1, hout x hx1⟩
      · simp only [allD, lookupD_insertA_ne _ _ _ _ _ hq]
        exact hInv q x hx1
    next hp => exact absurd hm (by simp)

/-- Witness for `c3_amended_invariant_preservation` at a concrete state with
offset 5 admitted and still outstanding, and the operations applied at
offset 5 — in particular `complete_offset` there removes an
actually-outstanding offset. -/
theorem c3_amended_invariant_preservation_witness :
    (∀ ta, add_offset ⟨[(0, [5])], [(0, [5])], [], [0]⟩ 0 5 = Except.ok ta →
      TrackerInv ta) ∧
    TrackerInv (complete_offset ⟨[(0, [5])], [(0, [5])], [], [0]⟩ 0 5) ∧
    TrackerInv (Tracker.clear ⟨[(0, [5])], [(0, [5])], [], [0]⟩) ∧
    TrackerInv (update_assignments ⟨[(0, [5])], [(0, [5])], [], [0]⟩ [1]) ∧
    ((∀ x ∈ outD ⟨[(0, [5])], [(0, [5])], [], [0]⟩ 0, 5 < x) →
      ∀ tm, mark_committed ⟨[(0, [5])], [(0, [5])], [], [0]⟩ 0 5 = Except.ok tm →
        TrackerInv tm) :=
  c3_amended_invariant_preservation ⟨[(0, [5])], [(0, [5])], [], [0]⟩
    (fun _ _ hx => hx) 0 5 [1]

theorem complete_offset_locks (t : Tracker) (p : Partition) (o : Int) :
    (complete_offset t p o).partition_locks = t.partition_locks := by
  unfold complete_offset
  split <;> rfl

theorem mem_outD_complete (t : Tracker) (p : Partition) (o : Int) (q : Partition) (x : Int)
    (h : x ∈ outD (complete_offset t p o) q) : x ∈ outD t q := by
  unfold complete_offset at h
  split at h
  next hp =>
    by_cases hq : q = p
    · subst hq
      have hx : x ∈ sdiscard (outD t q) o := by
        simpa [outD, lookupD_insertA_self] using h
      exact ((mem_sdiscard _ _ _).mp hx).1
    · simpa [outD, lookupD_insertA_ne _ _ _ _ _ hq] using h
  next => exact h

theorem workerRun_locks (l : List (WorkItem α × Bool)) (t : Tracker) :
    (workerRun t l).1.partition_locks = t.partition_locks := by
  induction l generalizing t with
  | nil => rfl
  | cons hd tl ih =>
    obtain ⟨it, b⟩ := hd
    simp only [workerRun]
    rw [ih, complete_offset_locks]

theorem workerRun_out_mono (l : List (WorkItem α × Bool)) (t : Tracker) (q : Partition)
    (x : Int) (h : x ∈ outD (workerRun t l).1 q) : x ∈ outD t q := by
  induction l generalizing t with
  | nil => exact h
  | cons hd tl ih =>
    obtain ⟨it, b⟩ := hd
    simp only [workerRun] at h
    exact mem_outD_complete _ _ _ _ _ (ih _ h)

theorem workerRun_trace (l : List (WorkItem α × Bool)) (t : Tracker) :
    (workerRun t l).2 = l.flatMap (fun y =>
      [Ev.processed y.1.partition y.1.offset y.2,
       Ev.completed y.1.partition y.1.offset]) := by
  induction l generalizing t with
  | nil => rfl
  | cons hd tl ih =>
    obtain ⟨it, b⟩ := hd
    simp only [workerRun, List.flatMap_cons, ih]
    rfl

/-- C5: a worker loop dequeues every listed item: the trace interleaves, for
each item in FIFO order, the `result_processor` call (which may raise — the
loop continues either way) and the `complete_offset` call of the `finally`
block before the next dequeue; consequently every dequeued item of a
partition that stays assigned ends up no longer outstanding. -/
theorem c5_worker_always_completes (t : Tracker) (items : List (WorkItem α × Bool))
    (x : WorkItem α × Bool) (hx : x ∈ items) (hp : x.1.partition ∈ t.partition_locks) :
    (workerRun t items).2 = items.flatMap (fun y =>
      [Ev.processed y.1.partition y.1.offset y.2,
       Ev.completed y.1.partition y.1.offset]) ∧
    x.1.offset ∉ outD (workerRun t items).1 x.1.partition := by
  refine ⟨workerRun_trace items t, ?_⟩
  induction items generalizing t with
  | nil => exact absurd hx (List.not_mem_nil x)
  | cons hd tl ih =>
    obtain ⟨it, b⟩ := hd
    rcases List.mem_cons.mp hx with rfl | hx2
    · simp only [workerRun]
      intro hmem
      have h2 := workerRun_out_mono tl _ _ _ hmem
      unfold complete_offset at h2
      rw [if_pos hp] at h2
      have h3 : (it, b).1.offset ∈ sdiscard (outD t (it, b).1.partition) (it, b).1.offset := by
        simpa [outD, lookupD_insertA_self] using h2
      exact ((mem_sdiscard _ _ _).mp h3).2 rfl
    · simp only [workerRun]
      refine ih _ hx2 ?_
      rw [complete_offset_locks]
      exact hp

/-- Witness for `c5_worker_always_completes`: two items on partition 0, the
first of which makes the callback raise; both are completed and the first
item's offset leaves `outstanding`. -/
theorem c5_worker_always_completes_witness :
    (workerRun ⟨[(0, [1, 2])], [(0, [1, 2])], [], [0]⟩
        [((⟨0, 1, ()⟩ : WorkItem Unit), true), (⟨0, 2, ()⟩, false)]).2 =
      [((⟨0, 1, ()⟩ : WorkItem Unit), true), (⟨0, 2, ()⟩, false)].flatMap (fun y =>
        [Ev.processed y.1.partition y.1.offset y.2,
         Ev.completed y.1.partition y.1.offset]) ∧
    ((⟨0, 1, ()⟩ : WorkItem Unit), true).1.offset ∉
      outD (workerRun ⟨[(0, [1, 2])], [(0, [1, 2])], [], [0]⟩
        [((⟨0, 1, ()⟩ : WorkItem Unit), true), (⟨0, 2, ()⟩, false)]).1
        ((⟨0, 1, ()⟩ : WorkItem Unit), true).1.partition :=
  c5_worker_always_completes _ _ _ (by decide) (by decide)

theorem wait_until_empty_zero (polls : List (Int × Bool))
    (h : ∀ e ∈ polls, 0 ≤ e.1) : wait_until_empty 0 polls = false := by
  cases polls with
  | nil => rfl
  | cons hd tl =>
    obtain ⟨e, b⟩ := hd
    have he : 0 ≤ e := h (e, b) (List.mem_cons_self _ _)
    simp only [wait_until_empty]
    rw [if_neg (by omega)]

/-- C8: `flush(timeout=0)` never observes the queues (the wait loop's
condition `elapsed < 0` is immediately false), so it reports failure,
drains every lane queue without processing the pending items, and clears
all ledger state — admitted, outstanding, last-committed and the
partition-lock table — returning `False`. -/
theorem c8_flush_zero_discards_and_clears (pool : Pool α) (polls : List (Int × Bool))
    (h : ∀ e ∈ polls, 0 ≤ e.1) :
    flush pool (some 0) polls =
      ({ tracker := Tracker.init, queues := pool.queues.map (fun _ => []) }, false) := by
  have hw := wait_until_empty_zero polls h
  simp [flush, hw, Tracker.clear]

/-- Witness for `c8_flush_zero_discards_and_clears` on a pool with a
pending item in its first lane. -/
theorem c8_flush_zero_discards_and_clears_witness :
    flush (⟨⟨[(0, [1])], [(0, [1])], [], [0]⟩,
        [[(⟨0, 1, ()⟩ : WorkItem Unit)], []]⟩ : Pool Unit) (some 0) [] =
      (⟨Tracker.init, [[], []]⟩, false) :=
  c8_flush_zero_discards_and_clears _ [] (by decide)

/-- C9: for every timeout (including `None`) and every outcome of the wait
loop, `flush` unconditionally clears all ledger state, so nothing remains
committable afterwards: offsets processed but not yet committed at flush
time are dropped and never handed to the acknowledger under the current
assignment. -/
theorem c9_flush_clears_unconditionally (pool : Pool α) (timeout : Option Int)
    (polls : List (Int × Bool)) :
    (flush pool timeout polls).1.tracker = Tracker.init ∧
    get_committable_offsets (flush pool timeout polls).1.tracker = [] :=
  ⟨rfl, rfl⟩

/-- C2 counterexample: with no partition assigned, a decoder exception on a
`BrokerValue` message reaches the outer handler, whose unguarded
`add_offset` raises `UnassignedPartitionError` out of `submit`. -/
theorem c2_counterexample :
    (strategySubmit false (⟨Tracker.init, [[]]⟩ : Pool Unit) (fun _ => 0)
        (fun _ => Except.ok "g") (Except.error ()) (some (0, 5))).1 =
      Outcome.raised PyErr.unassignedPartition := by
  decide

/-- C2 (amended): `submit` recovers `UnassignedPartitionError` on the normal
path (inside `FixedQueuePool.submit`) and on the decode-skip path, but not on
the unexpected-exception recovery path: the error escapes to the caller
exactly when the strategy is not shutting down, the message has a
`BrokerValue` for an unassigned partition, and the decoder or the grouping
function raised. -/
theorem c2_amended_unassigned_escape (shutdown : Bool) (pool : Pool α)
    (hashFn : String → Nat) (gf : α → Except Unit String)
    (dec : Except Unit (Option α)) (broker : Option (Partition × Int)) :
    (strategySubmit shutdown pool hashFn gf dec broker).1 =
        Outcome.raised PyErr.unassignedPartition ↔
      shutdown = false ∧ ∃ p o, broker = some (p, o) ∧
        p ∉ pool.tracker.partition_locks ∧
        (dec = Except.error () ∨
          ∃ r, dec = Except.ok (some r) ∧ gf r = Except.error ()) := by
  cases shutdown
  case true => simp [strategySubmit]
  case false =>
    cases dec with
    | error u =>
      cases u
      cases broker with
      | none => simp [strategySubmit, strategyRecover]
      | some po =>
        obtain ⟨p, o⟩ := po
        by_cases hp : p ∈ pool.tracker.partition_locks
        · simp [strategySubmit, strategyRecover, add_offset, hp]
        · simp [strategySubmit, strategyRecover, add_offset, hp]
    | ok res =>
      cases broker with
      | none => cases res <;> simp [strategySubmit, strategyRecover]
      | some po =>
        obtain ⟨p, o⟩ := po
        cases res with
        | none =>
          by_cases hp : p ∈ pool.tracker.partition_locks <;>
            simp [strategySubmit, add_offset, hp]
        | some r =>
          cases hgf : gf r with
          | error u =>
            cases u
            by_cases hp : p ∈ pool.tracker.partition_locks <;>
              simp [strategySubmit, strategyRecover, add_offset, hp, hgf]
          | ok key =>
            simp [strategySubmit, hgf]
